import Mathlib

/-
  Verification of the karriere.at scraper core (src/karriere_scraper.py).

  Shallow embedding conventions:
  * The selenium driver is modelled as an explicit environment giving the
    outcome of each external operation (navigation, waits, element lookups).
  * Python exceptions are modelled with Except, or with an error field
    threaded through an explicit state; TimeoutException is distinguished
    from every other exception by the Exc type.
  * The regular expressions of the source are implemented directly as
    executable functions on List Char.
-/

namespace Karriere

/-- Python exceptions, as far as the scraper distinguishes them:
TimeoutException versus every other exception. -/
inductive Exc where
  | timeout
  | other
  deriving DecidableEq, Repr

/-! ## Text normalization (_visible_text, str.strip) -/

/-- The whitespace characters collapsed by the regex in _visible_text and
removed by str.strip: space, tab, newline, carriage return, vertical tab,
form feed (the characters on which the regex class and str.strip agree). -/
def isPySpace (c : Char) : Bool :=
  c == ' ' || c == '\t' || c == '\n' || c == '\r' || c == '\x0b' || c == '\x0c'

/-- One pass of the substitution of every whitespace run by a single space,
as in _visible_text.  The Bool records whether the previous character was
whitespace, so that a run of whitespace characters produces one space. -/
def collapseAux : Bool → List Char → List Char
  | _, [] => []
  | prev, c :: rest =>
    if isPySpace c then
      match prev with
      | true => collapseAux true rest
      | false => ' ' :: collapseAux true rest
    else c :: collapseAux false rest

/-- The whitespace-run collapse performed by _visible_text before stripping. -/
def collapseWS (l : List Char) : List Char :=
  collapseAux false l

/-- str.strip with no argument: remove leading and trailing whitespace. -/
def pyStripList (l : List Char) : List Char :=
  ((l.dropWhile isPySpace).reverse.dropWhile isPySpace).reverse

/-- _visible_text on the character-list level: collapse every whitespace run
to a single space, then strip both ends. -/
def visibleTextList (l : List Char) : List Char :=
  pyStripList (collapseWS l)

/-- _visible_text of the source: re.sub of every whitespace run by a single
space, followed by str.strip. -/
def visibleText (s : String) : String :=
  String.mk (visibleTextList s.data)

/-- str.strip on Lean strings (used by the posted_at fallback). -/
def pyStrip (s : String) : String :=
  String.mk (pyStripList s.data)

/-- Every whitespace character in the collapse output is a plain space. -/
theorem collapseAux_spaces_blank (l : List Char) :
    ∀ (b : Bool), ∀ c ∈ collapseAux b l, isPySpace c = true → c = ' ' := by
  induction l with
  | nil => intro b c hc; simp [collapseAux] at hc
  | cons x xs ih =>
    intro b c hc hsp
    cases hx : isPySpace x with
    | true =>
      cases b with
      | true =>
        simp only [collapseAux, hx, if_pos] at hc
        exact ih true c hc hsp
      | false =>
        simp only [collapseAux, hx, if_pos] at hc
        rcases List.mem_cons.mp hc with h | h
        · exact h
        · exact ih true c h hsp
    | false =>
      simp only [collapseAux, hx] at hc
      rcases List.mem_cons.mp hc with h | h
      · subst h; rw [hsp] at hx; exact absurd hx (by decide)
      · exact ih false c h hsp

/-- After a whitespace character was just emitted, the collapse output never
begins with another whitespace character. -/
theorem collapseAux_true_head (l : List Char) :
    ∀ c, (collapseAux true l).head? = some c → isPySpace c = false := by
  induction l with
  | nil => intro c hc; simp [collapseAux] at hc
  | cons x xs ih =>
    intro c hc
    cases hx : isPySpace x with
    | true =>
      have hrw : collapseAux true (x :: xs) = collapseAux true xs := by
        simp [collapseAux, hx]
      rw [hrw] at hc
      exact ih c hc
    | false =>
      simp [collapseAux, hx] at hc
      subst hc; exact hx

/-- The collapse output never contains two adjacent whitespace characters. -/
theorem collapseAux_chain (l : List Char) :
    ∀ (b : Bool), (collapseAux b l).Chain'
      (fun a c => ¬(isPySpace a = true ∧ isPySpace c = true)) := by
  induction l with
  | nil => intro b; simp [collapseAux]
  | cons x xs ih =>
    intro b
    cases hx : isPySpace x with
    | true =>
      cases b with
      | true =>
        simpa only [collapseAux, hx, if_pos] using ih true
      | false =>
        simp only [collapseAux, hx, if_pos]
        rw [List.chain'_cons']
        refine ⟨fun y hy => ?_, ih true⟩
        have hns := collapseAux_true_head xs y (Option.mem_def.mp hy)
        intro hcon
        rw [hns] at hcon
        exact Bool.false_ne_true hcon.2
    | false =>
      have hrw : collapseAux b (x :: xs) = x :: collapseAux false xs := by
        simp [collapseAux, hx]
      rw [hrw, List.chain'_cons']
      refine ⟨fun y hy => ?_, ih false⟩
      intro hcon
      rw [hx] at hcon
      exact Bool.false_ne_true hcon.1

/-- When the list does not begin with whitespace, the two collapse modes
agree. -/
theorem collapseAux_true_eq_false (l : List Char)
    (h : ∀ c, l.head? = some c → isPySpace c = false) :
    collapseAux true l = collapseAux false l := by
  cases l with
  | nil => rfl
  | cons x xs =>
    have hx := h x rfl
    simp [collapseAux, hx]

/-- Collapsing is the identity on lists whose whitespace characters are all
plain spaces, with no two adjacent. -/
theorem collapseAux_false_fixed :
    ∀ (l : List Char),
      (∀ c ∈ l, isPySpace c = true → c = ' ') →
      l.Chain' (fun a c => ¬(isPySpace a = true ∧ isPySpace c = true)) →
      collapseAux false l = l := by
  intro l
  induction l with
  | nil => intro _ _; rfl
  | cons x xs ih =>
    intro hblank hchain
    cases hx : isPySpace x with
    | false =>
      have hrw : collapseAux false (x :: xs) = x :: collapseAux false xs := by
        simp [collapseAux, hx]
      rw [hrw, ih (fun c hc => hblank c (List.mem_cons_of_mem _ hc)) hchain.tail]
    | true =>
      have hx' : x = ' ' := hblank x (List.mem_cons_self _ _) hx
      have hhead : ∀ c, xs.head? = some c → isPySpace c = false := by
        intro c hc
        cases xs with
        | nil => simp at hc
        | cons y ys =>
          have hyc : y = c := by simpa using hc
          have hrel := (List.chain'_cons.mp hchain).1
          rw [← hyc]
          cases hcy : isPySpace y with
          | false => rfl
          | true => exact absurd ⟨hx, hcy⟩ hrel
      have hrw : collapseAux false (x :: xs) = ' ' :: collapseAux true xs := by
        simp [collapseAux, hx]
      rw [hrw, collapseAux_true_eq_false xs hhead,
        ih (fun c hc => hblank c (List.mem_cons_of_mem _ hc)) hchain.tail, hx']

/-- dropWhile is the identity when the head does not satisfy the predicate. -/
theorem dropWhile_eq_self_of_head (p : Char → Bool) (l : List Char)
    (h : ∀ c, l.head? = some c → p c = false) :
    l.dropWhile p = l := by
  cases l with
  | nil => rfl
  | cons x xs => simp [List.dropWhile_cons, h x rfl]

/-- The head of a dropWhile result does not satisfy the predicate. -/
theorem head_dropWhile_false (p : Char → Bool) :
    ∀ (l : List Char) (c : Char), (l.dropWhile p).head? = some c → p c = false := by
  intro l
  induction l with
  | nil => intro c hc; simp at hc
  | cons x xs ih =>
    intro c hc
    cases hpx : p x with
    | true =>
      rw [List.dropWhile_cons, if_pos (by rw [hpx])] at hc
      exact ih c hc
    | false =>
      rw [List.dropWhile_cons, if_neg (by rw [hpx]; exact Bool.false_ne_true)] at hc
      simp only [List.head?_cons, Option.some.injEq] at hc
      subst hc; exact hpx

/-- When dropWhile returns a last element, it is the last element of the
original list. -/
theorem getLast?_dropWhile_some (p : Char → Bool) :
    ∀ (l : List Char) (c : Char), (l.dropWhile p).getLast? = some c →
      l.getLast? = some c := by
  intro l
  induction l with
  | nil => intro c hc; simp at hc
  | cons x xs ih =>
    intro c hc
    cases hpx : p x with
    | true =>
      rw [List.dropWhile_cons, if_pos (by rw [hpx])] at hc
      have h2 := ih c hc
      cases xs with
      | nil => simp at h2
      | cons y ys => rw [List.getLast?_cons_cons]; exact h2
    | false =>
      rw [List.dropWhile_cons, if_neg (by rw [hpx]; exact Bool.false_ne_true)] at hc
      exact hc

/-- Membership is preserved from a dropWhile result into the original list. -/
theorem mem_of_mem_dropWhile (p : Char → Bool) :
    ∀ (l : List Char) (c : Char), c ∈ l.dropWhile p → c ∈ l := by
  intro l
  induction l with
  | nil => intro c hc; simp at hc
  | cons x xs ih =>
    intro c hc
    cases hpx : p x with
    | true =>
      rw [List.dropWhile_cons, if_pos (by rw [hpx])] at hc
      exact List.mem_cons_of_mem _ (ih c hc)
    | false =>
      rw [List.dropWhile_cons, if_neg (by rw [hpx]; exact Bool.false_ne_true)] at hc
      exact hc

/-- Chains survive dropWhile. -/
theorem chain'_dropWhile {R : Char → Char → Prop} (p : Char → Bool) :
    ∀ (l : List Char), l.Chain' R → (l.dropWhile p).Chain' R := by
  intro l
  induction l with
  | nil => intro _; simp
  | cons x xs ih =>
    intro hchain
    cases hpx : p x with
    | true =>
      rw [List.dropWhile_cons, if_pos (by rw [hpx])]
      exact ih hchain.tail
    | false =>
      rw [List.dropWhile_cons, if_neg (by rw [hpx]; exact Bool.false_ne_true)]
      exact hchain

/-- Membership is preserved from the strip result into the original list. -/
theorem mem_of_mem_pyStripList (l : List Char) (c : Char)
    (hc : c ∈ pyStripList l) : c ∈ l := by
  unfold pyStripList at hc
  rw [List.mem_reverse] at hc
  have h1 := mem_of_mem_dropWhile isPySpace _ c hc
  rw [List.mem_reverse] at h1
  exact mem_of_mem_dropWhile isPySpace l c h1

/-- Chains survive stripping when the chain relation is symmetric. -/
theorem chain'_pyStripList {R : Char → Char → Prop}
    (hsymm : ∀ a b, R a b → R b a) (l : List Char) (h : l.Chain' R) :
    (pyStripList l).Chain' R := by
  unfold pyStripList
  rw [List.chain'_reverse]
  refine List.Chain'.imp (fun a b hab => hsymm a b hab) ?_
  refine chain'_dropWhile isPySpace _ ?_
  rw [List.chain'_reverse]
  refine List.Chain'.imp (fun a b hab => hsymm a b hab) ?_
  exact chain'_dropWhile isPySpace l h

/-- The strip result never begins with whitespace. -/
theorem pyStripList_head (l : List Char) :
    ∀ c, (pyStripList l).head? = some c → isPySpace c = false := by
  intro c hc
  unfold pyStripList at hc
  rw [List.head?_reverse] at hc
  have h1 := getLast?_dropWhile_some isPySpace _ c hc
  rw [List.getLast?_reverse] at h1
  exact head_dropWhile_false isPySpace l c h1

/-- The strip result never ends with whitespace. -/
theorem pyStripList_getLast (l : List Char) :
    ∀ c, (pyStripList l).getLast? = some c → isPySpace c = false := by
  intro c hc
  unfold pyStripList at hc
  rw [List.getLast?_reverse] at hc
  exact head_dropWhile_false isPySpace _ c hc

/-- Stripping is the identity when neither end is whitespace. -/
theorem pyStripList_fixed (l : List Char)
    (hh : ∀ c, l.head? = some c → isPySpace c = false)
    (hl : ∀ c, l.getLast? = some c → isPySpace c = false) :
    pyStripList l = l := by
  unfold pyStripList
  rw [dropWhile_eq_self_of_head _ l hh]
  rw [dropWhile_eq_self_of_head _ l.reverse
    (fun c hc => hl c (by rwa [List.head?_reverse] at hc))]
  exact List.reverse_reverse l

/-- Idempotence on the character-list level. -/
theorem visibleTextList_idem (l : List Char) :
    visibleTextList (visibleTextList l) = visibleTextList l := by
  have hblank : ∀ c ∈ visibleTextList l, isPySpace c = true → c = ' ' := by
    intro c hc hsp
    exact collapseAux_spaces_blank l false c (mem_of_mem_pyStripList _ c hc) hsp
  have hchain : (visibleTextList l).Chain'
      (fun a c => ¬(isPySpace a = true ∧ isPySpace c = true)) := by
    refine chain'_pyStripList ?_ _ (collapseAux_chain l false)
    intro a b hab hcon
    exact hab ⟨hcon.2, hcon.1⟩
  have hhead := pyStripList_head (collapseWS l)
  have hlast := pyStripList_getLast (collapseWS l)
  show pyStripList (collapseWS (visibleTextList l)) = visibleTextList l
  rw [show collapseWS (visibleTextList l) = visibleTextList l from
    collapseAux_false_fixed _ hblank hchain]
  exact pyStripList_fixed _ hhead hlast

/-- C9: whitespace normalization is idempotent — applying _visible_text
(collapse internal whitespace runs to a single space and trim ends) to its
own output returns that output unchanged, for every string. -/
theorem visibleText_idempotent (s : String) :
    visibleText (visibleText s) = visibleText s := by
  show String.mk (visibleTextList (String.mk (visibleTextList s.data)).data)
      = String.mk (visibleTextList s.data)
  exact congrArg String.mk (visibleTextList_idem s.data)

/-! ## Link collector (_collect_job_links_on_page) -/

/-- A decimal digit as matched by the digit class of the regex (the hrefs of
the site are ASCII). -/
def isDigitChar (c : Char) : Bool :=
  ('0' ≤ c) && (c ≤ '9')

/-- End-of-input position for the dollar anchor of the regex: the true end,
or a position just before one final newline. -/
def endOk : List Char → Bool
  | [] => true
  | ['\n'] => true
  | _ => false

/-- The optional group of the detail-page regex after the digits: nothing
more (up to the dollar anchor), or one of slash, question mark, hash
followed by arbitrary characters other than newline, again up to the
anchor. -/
def detailTail : List Char → Bool
  | [] => true
  | ['\n'] => true
  | c :: rest =>
    (c == '/' || c == '?' || c == '#') &&
      endOk (rest.dropWhile (fun d => d != '\n'))

/-- One or more digits followed by a valid tail, consuming the whole rest of
the href. -/
def digitsThenTail : List Char → Bool
  | [] => false
  | c :: rest => isDigitChar c && (detailTail rest || digitsThenTail rest)

/-- The search of the source regex over an href: somewhere in the href there
is the literal jobs path segment, then one or more digits, then optionally
one of slash, question mark, hash with arbitrary non-newline characters,
ending at the end of the href. -/
def searchJobsDetail : List Char → Bool
  | [] => false
  | c :: rest =>
    (match c :: rest with
     | '/' :: 'j' :: 'o' :: 'b' :: 's' :: '/' :: after => digitsThenTail after
     | _ => false) || searchJobsDetail rest

/-- The loop of _collect_job_links_on_page.  The anchors are the href
attributes read by get_attribute (none when the attribute is missing); an
empty href is skipped by the same truthiness test that skips a missing one.
A matching href not yet in the seen set is appended; the seen set grows
with it. -/
def collectAux : List (Option String) → List String → List String
  | [], _ => []
  | none :: rest, seen => collectAux rest seen
  | some href :: rest, seen =>
    if href = "" then collectAux rest seen
    else if searchJobsDetail href.data && !(seen.contains href) then
      href :: collectAux rest (href :: seen)
    else collectAux rest seen

/-- _collect_job_links_on_page: canonical detail links of one listing page,
deduplicated by exact string match, in document order. -/
def collect_job_links_on_page (anchors : List (Option String)) : List String :=
  collectAux anchors []

/-- Modelled from the spec (§4.3 wording): the hrefs that survive the
per-anchor filter — present, nonempty, and matching the canonical
detail-page shape. -/
def validHrefs (anchors : List (Option String)) : List String :=
  (anchors.filterMap id).filter (fun h => (!(h == "")) && searchJobsDetail h.data)

/-- Modelled from the spec (§4.3 wording): deduplication by exact string
match preserving first-seen order, relative to an already-seen set. -/
def dedupFirstSeenAux : List String → List String → List String
  | [], _ => []
  | h :: t, seen =>
    if seen.contains h then dedupFirstSeenAux t seen
    else h :: dedupFirstSeenAux t (h :: seen)

/-- Modelled from the spec (§4.3 wording): deduplicate by exact string
match while preserving first-seen order. -/
def dedupFirstSeen (l : List String) : List String :=
  dedupFirstSeenAux l []

/-- The collector output contains no element of the seen set, and no
duplicates. -/
theorem collectAux_nodup :
    ∀ (anchors : List (Option String)) (seen : List String),
      (collectAux anchors seen).Nodup ∧
        ∀ h ∈ collectAux anchors seen, h ∉ seen := by
  intro anchors
  induction anchors with
  | nil => intro seen; simp [collectAux]
  | cons a rest ih =>
    intro seen
    match a with
    | none => simpa [collectAux] using ih seen
    | some href =>
      by_cases hemp : href = ""
      · have hrw : collectAux (some href :: rest) seen = collectAux rest seen := by
          simp only [collectAux]
          rw [if_pos hemp]
        rw [hrw]; exact ih seen
      · by_cases hcond : searchJobsDetail href.data = true ∧ ¬ seen.contains href = true
        · have h2' : seen.contains href = false := Bool.eq_false_iff.mpr hcond.2
          have hb : (searchJobsDetail href.data && !(seen.contains href)) = true := by
            rw [hcond.1, h2']; rfl
          have hrw : collectAux (some href :: rest) seen
              = href :: collectAux rest (href :: seen) := by
            simp only [collectAux]
            rw [if_neg hemp, if_pos hb]
          rw [hrw]
          obtain ⟨hnd, hout⟩ := ih (href :: seen)
          refine ⟨List.nodup_cons.mpr ⟨fun hmem => ?_, hnd⟩, ?_⟩
          · exact (hout href hmem) (List.mem_cons_self _ _)
          · intro h hmem
            rcases List.mem_cons.mp hmem with h1 | h1
            · subst h1
              intro hseen
              exact hcond.2 (List.elem_eq_true_of_mem hseen)
            · intro hseen
              exact (hout h h1) (List.mem_cons_of_mem _ hseen)
        · have hb : (searchJobsDetail href.data && !(seen.contains href)) = false := by
            rcases not_and_or.mp hcond with h1 | h1
            · rw [Bool.eq_false_iff.mpr h1]; rfl
            · rw [not_not.mp h1, Bool.not_true, Bool.and_false]
          have hrw : collectAux (some href :: rest) seen = collectAux rest seen := by
            simp only [collectAux]
            rw [if_neg hemp, if_neg (by rw [hb]; exact Bool.false_ne_true)]
          rw [hrw]
          exact ih seen

/-- C1 (amended): deduplication happens only within a single listing page —
the link collector never returns the same URL twice for one page. -/
theorem collect_links_nodup (anchors : List (Option String)) :
    (collect_job_links_on_page anchors).Nodup :=
  (collectAux_nodup anchors []).1

/-- The collector is exactly the spec-side §4.3 pipeline: filter the hrefs
that are present, nonempty and of the canonical detail shape, then
deduplicate by exact string match in first-seen order. -/
theorem collectAux_eq_dedup :
    ∀ (anchors : List (Option String)) (seen : List String),
      collectAux anchors seen = dedupFirstSeenAux (validHrefs anchors) seen := by
  intro anchors
  induction anchors with
  | nil => intro seen; rfl
  | cons a rest ih =>
    intro seen
    match a with
    | none => simpa [collectAux, validHrefs] using ih seen
    | some href =>
      by_cases hemp : href = ""
      · have hv : validHrefs (some href :: rest) = validHrefs rest := by
          simp [validHrefs, hemp]
        have hrw : collectAux (some href :: rest) seen = collectAux rest seen := by
          simp only [collectAux]
          rw [if_pos hemp]
        rw [hrw, hv]; exact ih seen
      · by_cases hmatch : searchJobsDetail href.data = true
        · have hv : validHrefs (some href :: rest) = href :: validHrefs rest := by
            simp [validHrefs, hemp, hmatch]
          by_cases hseen : seen.contains href = true
          · have hb : (searchJobsDetail href.data && !(seen.contains href)) = false := by
              rw [hseen, Bool.not_true, Bool.and_false]
            have hrw : collectAux (some href :: rest) seen = collectAux rest seen := by
              simp only [collectAux]
              rw [if_neg hemp, if_neg (by rw [hb]; exact Bool.false_ne_true)]
            rw [hrw, hv]
            show _ = dedupFirstSeenAux (href :: validHrefs rest) seen
            rw [dedupFirstSeenAux, if_pos hseen]
            exact ih seen
          · have hb : (searchJobsDetail href.data && !(seen.contains href)) = true := by
              rw [hmatch, Bool.eq_false_iff.mpr hseen]; rfl
            have hrw : collectAux (some href :: rest) seen
                = href :: collectAux rest (href :: seen) := by
              simp only [collectAux]
              rw [if_neg hemp, if_pos hb]
            rw [hrw, hv]
            show _ = dedupFirstSeenAux (href :: validHrefs rest) seen
            rw [dedupFirstSeenAux, if_neg hseen]
            rw [ih (href :: seen)]
        · have hv : validHrefs (some href :: rest) = validHrefs rest := by
            simp [validHrefs, Bool.eq_false_iff.mpr hmatch]
          have hrw : collectAux (some href :: rest) seen = collectAux rest seen := by
            simp only [collectAux]
            rw [if_neg hemp,
              if_neg (by rw [Bool.eq_false_iff.mpr hmatch]; exact Bool.false_ne_true)]
          rw [hrw, hv]
          exact ih seen

/-- C6 (amended): the Link Collector returns exactly one entry per distinct
href string — it is the §4.3 pipeline of filtering canonical detail hrefs
and deduplicating by exact string match in first-seen order; hrefs that
differ only in fragment are distinct strings and are not merged. -/
theorem collect_links_eq_spec_pipeline (anchors : List (Option String)) :
    collect_job_links_on_page anchors = dedupFirstSeen (validHrefs anchors) :=
  collectAux_eq_dedup anchors []

/-- The two anchors of the C6 counterexample: identical path, differing
fragment. -/
def fragAnchors : List (Option String) :=
  [some "https://www.karriere.at/jobs/123",
   some "https://www.karriere.at/jobs/123#apply"]

/-- C6 (counterexample): on a listing page whose two anchors identify the
same canonical detail URL by identical path but differing fragment, the
Link Collector returns two entries, not one — deduplication is by exact
string match, and the fragments make the strings distinct. -/
theorem collect_links_fragment_counterexample :
    collect_job_links_on_page fragAnchors
        = ["https://www.karriere.at/jobs/123",
           "https://www.karriere.at/jobs/123#apply"] ∧
      (collect_job_links_on_page fragAnchors).length = 2 := by
  exact ⟨by decide, by decide⟩

/-! ## JSON values and the structured-data phase of _extract_job -/

/-- Parsed JSON values, the possible results of json.loads. -/
inductive JVal where
  | null
  | bool : Bool → JVal
  | num : Int → JVal
  | str : String → JVal
  | arr : List JVal → JVal
  | obj : List (String × JVal) → JVal

/-- Python truthiness of a JSON value. -/
def truthy : JVal → Bool
  | .null => false
  | .bool b => b
  | .num n => n != 0
  | .str s => s != ""
  | .arr l => !l.isEmpty
  | .obj l => !l.isEmpty

/-- dict.get on the association-list representation of a JSON object. -/
def pyGet (kvs : List (String × JVal)) (k : String) : Option JVal :=
  (kvs.find? (fun kv => kv.1 == k)).map (fun kv => kv.2)

/-- The right-absorbing x-or pattern of the source, applied to a candidate:
the candidate itself when truthy, nothing otherwise. -/
def truthyOpt : Option JVal → Option JVal
  | some v => if truthy v then some v else none
  | none => none

/-- The declared-type check of the source against the job-posting marker. -/
def typeIsJobPosting (kvs : List (String × JVal)) : Bool :=
  match pyGet kvs "@type" with
  | some (.str s) => s == "JobPosting"
  | _ => false

/-- Graph substitution: when the object carries a graph list, its first
dict member declared as a job posting replaces the working object. -/
def graphSub (kvs : List (String × JVal)) : List (String × JVal) :=
  match pyGet kvs "@graph" with
  | some (.arr gs) =>
    match gs.find? (fun g => match g with
      | .obj go => typeIsJobPosting go
      | _ => false) with
    | some (.obj go) => go
    | _ => kvs
  | _ => kvs

/-- A block item resolves to a job-posting object when it is a dict that,
after graph substitution, declares the job-posting type. -/
def jpOfItem : JVal → Option (List (String × JVal))
  | .obj kvs =>
    let kvs2 := graphSub kvs
    if typeIsJobPosting kvs2 then some kvs2 else none
  | _ => none

/-- Normalization of the parsed payload to a list of candidate items. -/
def toCandidates : JVal → List JVal
  | .arr l => l
  | v => [v]

/-- The five field variables of _extract_job before assembling the record. -/
structure P1Fields where
  title : Option JVal
  company : Option JVal
  location : Option JVal
  posted_at : Option JVal
  description : Option JVal

/-- All five field variables start out unset. -/
def p1Init : P1Fields := ⟨none, none, none, none, none⟩

/-- The new-value-or-keep update pattern of the source: the candidate when
present (candidates are already truthiness-filtered), the old value
otherwise. -/
def orKeep (cand old : Option JVal) : Option JVal :=
  match cand with
  | some v => some v
  | none => old

/-- Title candidate of a job-posting object: its title field when truthy. -/
def titleCand (go : List (String × JVal)) : Option JVal :=
  truthyOpt (pyGet go "title")

/-- Posting-date candidate: the datePosted field when truthy. -/
def postedCand (go : List (String × JVal)) : Option JVal :=
  truthyOpt (pyGet go "datePosted")

/-- Company candidate: a falsy hiringOrganization becomes an empty dict; a
dict contributes its name field when truthy; a truthy non-dict contributes
nothing. -/
def orgCand (go : List (String × JVal)) : Option JVal :=
  match pyGet go "hiringOrganization" with
  | some v =>
    if truthy v then
      match v with
      | .obj o => truthyOpt (pyGet o "name")
      | _ => none
    else none
  | none => none

/-- Location candidate: a falsy jobLocation becomes an empty dict, a truthy
list is replaced by its first element; a dict contributes the locality of
its address dict, falling back to the region, each when truthy. -/
def locCand (go : List (String × JVal)) : Option JVal :=
  let loc0 : JVal :=
    match pyGet go "jobLocation" with
    | some v => if truthy v then v else .obj []
    | none => .obj []
  let loc1 : JVal :=
    match loc0 with
    | .arr (x :: _) => x
    | v => v
  match loc1 with
  | .obj o =>
    let addr : JVal :=
      match pyGet o "address" with
      | some a => if truthy a then a else .obj []
      | none => .obj []
    match addr with
    | .obj ao =>
      match truthyOpt (pyGet ao "addressLocality") with
      | some v => some v
      | none => truthyOpt (pyGet ao "addressRegion")
    | _ => none
  | _ => none

/-! The crude tag stripping of the source regex: an opening angle bracket,
one or more characters that are not a closing angle bracket, then a closing
angle bracket, replaced by a space, scanning left to right. -/

/-- After an opening angle bracket: take the characters before the first
closing bracket (the head of the dropWhile remainder, when nonempty, is
necessarily that closing bracket); at least one such character must exist;
returns the characters after the closing bracket. -/
def tagSplit (cs : List Char) : Option (List Char) :=
  match cs.dropWhile (fun d => d != '>') with
  | [] => none
  | _ :: tail =>
    if (cs.takeWhile (fun d => d != '>')).isEmpty then none else some tail

/-- A successful tag split strictly shrinks the input. -/
theorem tagSplit_length (cs tail : List Char) (h : tagSplit cs = some tail) :
    tail.length < cs.length := by
  unfold tagSplit at h
  cases hd : cs.dropWhile (fun d => d != '>') with
  | nil => rw [hd] at h; cases h
  | cons d dtail =>
    rw [hd] at h
    have h' : (if (cs.takeWhile (fun d => d != '>')).isEmpty = true
        then (none : Option (List Char)) else some dtail) = some tail := h
    by_cases hm : (cs.takeWhile (fun d => d != '>')).isEmpty = true
    · rw [if_pos hm] at h'; cases h'
    · rw [if_neg hm] at h'
      injection h' with h2
      subst h2
      have hlen : (d :: dtail).length ≤ cs.length := by
        rw [← hd]; exact (List.dropWhile_sublist _).length_le
      rw [List.length_cons] at hlen
      omega

/-- The tag-stripping substitution on character lists. -/
def stripTagsList : List Char → List Char
  | [] => []
  | c :: rest =>
    if c = '<' then
      match htag : tagSplit rest with
      | some tail => ' ' :: stripTagsList tail
      | none => c :: stripTagsList rest
    else c :: stripTagsList rest
termination_by l => l.length
decreasing_by
  · have := tagSplit_length rest tail htag
    simp only [List.length_cons]
    omega
  · simp only [List.length_cons]; omega
  · simp only [List.length_cons]; omega

/-- The tag-stripping substitution of the source. -/
def stripTags (s : String) : String :=
  String.mk (stripTagsList s.data)

/-- Description candidate, parameterized by the html unescape function of
the standard library (an external collaborator of the core).  A truthy
description that is not a string raises a TypeError inside the unescape
call; the per-block handler catches it after the other fields of the item
were already assigned, which leaves the description unchanged — the same
outcome as contributing no candidate.  A truthy string is unescaped,
tag-stripped and normalized. -/
def descCand (unesc : String → String) (go : List (String × JVal)) : Option JVal :=
  match pyGet go "description" with
  | some (.str s) =>
    if s == "" then none
    else some (.str (visibleText (stripTags (unesc s))))
  | _ => none

/-- The field updates applied from one job-posting item, in source order
(title, datePosted, hiringOrganization, jobLocation, description; the five
variables are distinct, so the sequence of assignments is the simultaneous
record update). -/
def itemUpdate (unesc : String → String) (go : List (String × JVal))
    (f : P1Fields) : P1Fields :=
  { title := orKeep (titleCand go) f.title
    posted_at := orKeep (postedCand go) f.posted_at
    company := orKeep (orgCand go) f.company
    location := orKeep (locCand go) f.location
    description := orKeep (descCand unesc go) f.description }

/-- Processing of one parsed block: scan its candidate items for the first
job-posting object; apply its updates and stop scanning this block. -/
def processBlock (unesc : String → String) (v : JVal) (f : P1Fields) : P1Fields :=
  match (toCandidates v).findSome? jpOfItem with
  | some go => itemUpdate unesc go f
  | none => f

/-- Phase 1 of _extract_job over the script blocks, left to right.  A block
that was empty, malformed or unreadable is represented as none and skipped
by the per-block exception handler. -/
def phase1 (unesc : String → String) (scripts : List (Option JVal)) : P1Fields :=
  scripts.foldl (fun f ob =>
    match ob with
    | none => f
    | some v => processBlock unesc v f) p1Init

/-- The job-posting object contributed by one script block, if any. -/
def blockJP (ob : Option JVal) : Option (List (String × JVal)) :=
  match ob with
  | none => none
  | some v => (toCandidates v).findSome? jpOfItem

/-- The candidate one script block contributes for one field. -/
def blockCand (c : List (String × JVal) → Option JVal) (ob : Option JVal) :
    Option JVal :=
  (blockJP ob).bind c

/-- The last truthy candidate for a field over the whole script list — what
the code computes, to be compared with the first-match-wins wording of the
spec. -/
def lastCand (c : List (String × JVal) → Option JVal)
    (scripts : List (Option JVal)) : Option JVal :=
  (scripts.filterMap (blockCand c)).getLast?

/-- A left fold of new-value-or-keep updates keeps the last candidate. -/
theorem foldl_orKeep_eq_getLast {β : Type} (c : β → Option JVal) (l : List β) :
    ∀ (init : Option JVal),
      l.foldl (fun acc b => orKeep (c b) acc) init
        = orKeep (l.filterMap c).getLast? init := by
  induction l using List.reverseRecOn with
  | nil => intro init; rfl
  | append_singleton xs x ih =>
    intro init
    rw [List.foldl_append, List.foldl_cons, List.foldl_nil, List.filterMap_append]
    cases hcx : c x with
    | none =>
      simp only [List.filterMap_cons, List.filterMap_nil, hcx, List.append_nil]
      exact ih init
    | some v =>
      simp only [List.filterMap_cons, List.filterMap_nil, hcx]
      rw [List.getLast?_concat]
      rw [ih init]
      rfl

/-- One step of the phase-1 fold, written fieldwise. -/
theorem phase1_step (unesc : String → String) (ob : Option JVal) (f : P1Fields) :
    (match ob with
      | none => f
      | some v => processBlock unesc v f)
      = { title := orKeep (blockCand titleCand ob) f.title
          posted_at := orKeep (blockCand postedCand ob) f.posted_at
          company := orKeep (blockCand orgCand ob) f.company
          location := orKeep (blockCand locCand ob) f.location
          description := orKeep (blockCand (descCand unesc) ob) f.description } := by
  cases ob with
  | none => rfl
  | some v =>
    show processBlock unesc v f = _
    unfold processBlock
    cases h : (toCandidates v).findSome? jpOfItem with
    | none =>
      show f = _
      simp only [blockCand, blockJP, h, Option.none_bind]
      rfl
    | some go =>
      show itemUpdate unesc go f = _
      simp only [blockCand, blockJP, h, Option.some_bind]
      rfl

/-- The phase-1 fold splits into five independent field folds. -/
theorem phase1_fields (unesc : String → String) :
    ∀ (scripts : List (Option JVal)) (f : P1Fields),
      scripts.foldl (fun f ob =>
          match ob with
          | none => f
          | some v => processBlock unesc v f) f
        = { title := scripts.foldl
              (fun a ob => orKeep (blockCand titleCand ob) a) f.title
            posted_at := scripts.foldl
              (fun a ob => orKeep (blockCand postedCand ob) a) f.posted_at
            company := scripts.foldl
              (fun a ob => orKeep (blockCand orgCand ob) a) f.company
            location := scripts.foldl
              (fun a ob => orKeep (blockCand locCand ob) a) f.location
            description := scripts.foldl
              (fun a ob => orKeep (blockCand (descCand unesc) ob) a) f.description } := by
  intro scripts
  induction scripts with
  | nil => intro f; rfl
  | cons ob rest ih =>
    intro f
    rw [List.foldl_cons, phase1_step unesc ob f, ih]
    simp only [List.foldl_cons]

/-- C2 (amended): Phase 1 does not stop at the first job-posting block.
Every script block is scanned; within one block only the first job-posting
item is used, but across blocks each field ends up as the LAST truthy
candidate contributed by any job-posting block — a later block overwrites
every field for which it has a truthy value, and an earlier value survives
only when no later block contributes that field. -/
theorem phase1_last_match_wins (unesc : String → String)
    (scripts : List (Option JVal)) :
    phase1 unesc scripts
      = { title := lastCand titleCand scripts
          posted_at := lastCand postedCand scripts
          company := lastCand orgCand scripts
          location := lastCand locCand scripts
          description := lastCand (descCand unesc) scripts } := by
  unfold phase1 p1Init
  rw [phase1_fields]
  unfold lastCand
  rw [foldl_orKeep_eq_getLast, foldl_orKeep_eq_getLast, foldl_orKeep_eq_getLast,
    foldl_orKeep_eq_getLast, foldl_orKeep_eq_getLast]
  cases h1 : (scripts.filterMap (blockCand titleCand)).getLast? <;>
    cases h2 : (scripts.filterMap (blockCand postedCand)).getLast? <;>
      cases h3 : (scripts.filterMap (blockCand orgCand)).getLast? <;>
        cases h4 : (scripts.filterMap (blockCand locCand)).getLast? <;>
          cases h5 : (scripts.filterMap (blockCand (descCand unesc))).getLast? <;>
            rfl

/-! ## The whole of _extract_job -/

/-- The job record assembled by _extract_job: the link is always the
requested url; every other field is whatever the two phases produced — a
JSON value from structured data, or a normalized string from a fallback. -/
structure Job where
  title : Option JVal
  company : Option JVal
  location : Option JVal
  posted_at : Option JVal
  link : String
  description : Option JVal

/-- Outcome of one fallback lookup (find_elements, then reading the text of
the first hit): no element, a text value, or an exception raised by the
lookup or the read. -/
inductive Lookup where
  | absent
  | text : String → Lookup
  | raised : Exc → Lookup

/-- Whether a lookup completes without raising. -/
def Lookup.completes : Lookup → Bool
  | .raised _ => false
  | _ => true

/-- Outcome of the posted-date fallback, which reads a datetime attribute
(possibly absent) and the visible text of the first hit. -/
inductive PostedLookup where
  | absent
  | found : Option String → String → PostedLookup
  | raised : Exc → PostedLookup

/-- Whether the posted-date lookup completes without raising. -/
def PostedLookup.completes : PostedLookup → Bool
  | .raised _ => false
  | _ => true

/-- Environment of one _extract_job call: the outcome of navigation plus
body wait, the parsed structured-data blocks (none for an empty, malformed
or unreadable block), and the outcomes of the five fallback lookups, in
source order. -/
structure DetailPage where
  navWait : Option Exc
  scripts : List (Option JVal)
  titleL : Lookup
  companyL : Lookup
  locationL : Lookup
  descriptionL : Lookup
  postedL : PostedLookup

/-- The if-not test of the source on a field variable: unset or falsy. -/
def pyFalsy : Option JVal → Bool
  | none => true
  | some v => !truthy v

/-- One fallback step: when the field is falsy the selectors are queried —
a found element replaces the field by its normalized text, no element keeps
the field, a raised exception propagates. -/
def runLookup (cur : Option JVal) (lk : Lookup) : Except Exc (Option JVal) :=
  if pyFalsy cur then
    match lk with
    | .absent => .ok cur
    | .text t => .ok (some (.str (visibleText t)))
    | .raised e => .error e
  else .ok cur

/-- The datetime-or-text-or-empty chain of the posted-date fallback. -/
def firstTruthyStr (attr : Option String) (txt : String) : String :=
  match attr with
  | some s => if s == "" then txt else s
  | none => txt

/-- The posted-date fallback step: prefers the machine-readable datetime
attribute over the visible text, then strips the result. -/
def runPosted (cur : Option JVal) (lk : PostedLookup) : Except Exc (Option JVal) :=
  if pyFalsy cur then
    match lk with
    | .absent => .ok cur
    | .found attr txt => .ok (some (.str (pyStrip (firstTruthyStr attr txt))))
    | .raised e => .error e
  else .ok cur

/-- The try block of _extract_job: navigate and wait, run the structured
phase, then the five fallbacks in source order; any raise aborts the rest
of the body. -/
def extract_job_body (unesc : String → String) (pg : DetailPage) (url : String) :
    Except Exc Job :=
  match pg.navWait with
  | some e => .error e
  | none =>
    let f := phase1 unesc pg.scripts
    (runLookup f.title pg.titleL).bind fun t =>
    (runLookup f.company pg.companyL).bind fun c =>
    (runLookup f.location pg.locationL).bind fun l =>
    (runLookup f.description pg.descriptionL).bind fun d =>
    (runPosted f.posted_at pg.postedL).bind fun p =>
    .ok { title := t, company := c, location := l,
          posted_at := p, link := url, description := d }

/-- _extract_job: the body runs under a handler that turns a raised
TimeoutException into no record; every other exception propagates to the
caller. -/
def extract_job (unesc : String → String) (pg : DetailPage) (url : String) :
    Except Exc (Option Job) :=
  match extract_job_body unesc pg url with
  | .ok j => .ok (some j)
  | .error .timeout => .ok none
  | .error .other => .error .other

/-- A non-raising lookup step always succeeds. -/
theorem runLookup_completes (cur : Option JVal) (lk : Lookup)
    (h : lk.completes = true) : ∃ x, runLookup cur lk = .ok x := by
  unfold runLookup
  by_cases hf : pyFalsy cur = true
  · rw [if_pos hf]
    cases lk with
    | absent => exact ⟨cur, rfl⟩
    | text t => exact ⟨some (.str (visibleText t)), rfl⟩
    | raised e => exact absurd h (by simp [Lookup.completes])
  · rw [if_neg hf]
    exact ⟨cur, rfl⟩

/-- A non-raising posted-date step always succeeds. -/
theorem runPosted_completes (cur : Option JVal) (lk : PostedLookup)
    (h : lk.completes = true) : ∃ x, runPosted cur lk = .ok x := by
  unfold runPosted
  by_cases hf : pyFalsy cur = true
  · rw [if_pos hf]
    cases lk with
    | absent => exact ⟨cur, rfl⟩
    | found attr txt => exact ⟨some (.str (pyStrip (firstTruthyStr attr txt))), rfl⟩
    | raised e => exact absurd h (by simp [PostedLookup.completes])
  · rw [if_neg hf]
    exact ⟨cur, rfl⟩

/-- C5 (amended): a timeout during navigation or wait on a detail page
yields no record (the crawl goes on); and when nothing raises, extractJob
always returns a record for the requested url, even if every field stays
null.  (A NON-timeout exception raised by a heuristic field lookup is NOT
caught locally — it propagates out of extractJob; see the counterexample.) -/
theorem extract_job_failure_semantics (unesc : String → String)
    (pg : DetailPage) (url : String) :
    (pg.navWait = some Exc.timeout → extract_job unesc pg url = .ok none) ∧
    (pg.navWait = none →
      pg.titleL.completes = true → pg.companyL.completes = true →
      pg.locationL.completes = true → pg.descriptionL.completes = true →
      pg.postedL.completes = true →
      ∃ j : Job, extract_job unesc pg url = .ok (some j) ∧ j.link = url) := by
  constructor
  · intro hnav
    unfold extract_job extract_job_body
    rw [hnav]
  · intro hnav h1 h2 h3 h4 h5
    obtain ⟨t, ht⟩ := runLookup_completes (phase1 unesc pg.scripts).title pg.titleL h1
    obtain ⟨c, hc⟩ := runLookup_completes (phase1 unesc pg.scripts).company pg.companyL h2
    obtain ⟨l, hl⟩ := runLookup_completes (phase1 unesc pg.scripts).location pg.locationL h3
    obtain ⟨d, hd⟩ := runLookup_completes (phase1 unesc pg.scripts).description pg.descriptionL h4
    obtain ⟨p, hp⟩ := runPosted_completes (phase1 unesc pg.scripts).posted_at pg.postedL h5
    refine ⟨{ title := t, company := c, location := l,
              posted_at := p, link := url, description := d }, ?_, rfl⟩
    unfold extract_job extract_job_body
    rw [hnav]
    simp only [ht, hc, hl, hd, hp, Except.bind]

/-- Witness detail page: the navigation times out. -/
def pgTimeout : DetailPage :=
  { navWait := some Exc.timeout, scripts := [], titleL := .absent,
    companyL := .absent, locationL := .absent, descriptionL := .absent,
    postedL := .absent }

/-- Witness detail page: nothing raises and nothing is found. -/
def pgEmpty : DetailPage :=
  { navWait := none, scripts := [], titleL := .absent,
    companyL := .absent, locationL := .absent, descriptionL := .absent,
    postedL := .absent }

/-- Witness for the amended C5 theorem at two concrete detail pages. -/
theorem extract_job_failure_semantics_witness :
    extract_job id pgTimeout "u" = .ok none ∧
    ∃ j : Job, extract_job id pgEmpty "u" = .ok (some j) ∧ j.link = "u" :=
  ⟨(extract_job_failure_semantics id pgTimeout "u").1 rfl,
   (extract_job_failure_semantics id pgEmpty "u").2 rfl rfl rfl rfl rfl rfl⟩

/-- The two structured-data blocks of the C2 counterexample: both declare a
job posting and a truthy title. -/
def jpBlockA : JVal := .obj [("@type", .str "JobPosting"), ("title", .str "A")]

/-- The second job-posting block of the C2 counterexample. -/
def jpBlockB : JVal := .obj [("@type", .str "JobPosting"), ("title", .str "B")]

/-- The detail page of the C2 counterexample: two job-posting blocks, no
heuristic elements. -/
def pgTwoBlocks : DetailPage :=
  { navWait := none, scripts := [some jpBlockA, some jpBlockB],
    titleL := .absent, companyL := .absent, locationL := .absent,
    descriptionL := .absent, postedL := .absent }

/-- C2 (counterexample): with two job-posting script blocks, the first
setting the title to A, extractJob returns the title of the LATER block —
scanning did not stop after the first populated job-posting block, and the
later block overwrote the already-set title. -/
theorem extract_job_overwrite_counterexample :
    (phase1 id [some jpBlockA]).title = some (.str "A") ∧
    extract_job id pgTwoBlocks "u"
      = .ok (some { title := some (.str "B"), company := none, location := none,
                    posted_at := none, link := "u", description := none }) := by
  constructor
  · rfl
  · rfl

/-! ## Crawl orchestrator (scrape_karriere) -/

/-- Observable events of one crawl, in order of issue.  An extract event
records the number of accumulated jobs at the moment of the call. -/
inductive Ev where
  | navList : Nat → Ev
  | consent : Ev
  | waitBody : Nat → Ev
  | extract : String → Nat → Ev
  | quit : Ev
  deriving DecidableEq

/-- Environment of one crawl: the outcome of every listing-page navigation
and readiness wait by page number, the anchor elements found on every
listing page, and the behavior of _extract_job per detail url (ok none for
a timeout skip, an error for a propagating exception). -/
structure Site where
  navOutcome : Nat → Option Exc
  waitOutcome : Nat → Option Exc
  anchors : Nat → List (Option String)
  extract : String → Except Exc (Option Job)

/-- Crawl state: accumulated jobs, the event trace so far, and the pending
exception — once set, control only unwinds to the finally block. -/
structure CrawlSt where
  jobs : List Job
  trace : List Ev
  err : Option Exc

/-- driver.get on a listing page: the navigation is issued, then either
succeeds or raises. -/
def navListStep (site : Site) (p : Nat) (st : CrawlSt) : CrawlSt :=
  match site.navOutcome p with
  | some e => { st with trace := st.trace ++ [Ev.navList p], err := some e }
  | none => { st with trace := st.trace ++ [Ev.navList p] }

/-- _wait_css for the body of a listing page. -/
def waitBodyStep (site : Site) (p : Nat) (st : CrawlSt) : CrawlSt :=
  match site.waitOutcome p with
  | some e => { st with trace := st.trace ++ [Ev.waitBody p], err := some e }
  | none => { st with trace := st.trace ++ [Ev.waitBody p] }

/-- _accept_cookies_if_present: every strategy failure is swallowed, so the
step never raises. -/
def consentStep (st : CrawlSt) : CrawlSt :=
  { st with trace := st.trace ++ [Ev.consent] }

/-- Exception propagation between the statements of the try block: a
pending exception skips the next operation. -/
def guardErr (f : CrawlSt → CrawlSt) (st : CrawlSt) : CrawlSt :=
  if st.err.isSome then st else f st

/-- The job-count stopping test of the source, with Python truthiness on
the optional bound: an absent bound and a zero bound are both falsy, so
neither ever stops the crawl. -/
def maxReached (maxJobs : Option Nat) (n : Nat) : Bool :=
  match maxJobs with
  | none => false
  | some m => (m != 0) && decide (m ≤ n)

/-- The per-link loop of the orchestrator: extract each collected link in
order; a returned record is appended; after each append the job-count test
may break the loop; a raised exception aborts it. -/
def linkLoop (site : Site) (maxJobs : Option Nat) :
    List String → CrawlSt → CrawlSt
  | [], st => st
  | link :: rest, st =>
    let st2 := { st with trace := st.trace ++ [Ev.extract link st.jobs.length] }
    match site.extract link with
    | .error e => { st2 with err := some e }
    | .ok none => linkLoop site maxJobs rest st2
    | .ok (some job) =>
      let st3 := { st2 with jobs := st2.jobs ++ [job] }
      if maxReached maxJobs st3.jobs.length then st3
      else linkLoop site maxJobs rest st3

/-- Navigation and readiness wait for listing pages after the first (the
first page was navigated before the loop); the wait is skipped when the
navigation raised. -/
def pageNav (site : Site) (page : Nat) (st : CrawlSt) : CrawlSt :=
  if 1 < page then guardErr (waitBodyStep site page) (navListStep site page st)
  else st

/-- The page loop of the orchestrator from the given page number while the
page limit is not exceeded.  The fuel argument bounds the remaining
iterations (pageLimit + 1 suffices from page one); every call site enters
with no pending exception.  Pages after the first are navigated and waited
for; the links of the page are collected and extracted; the job-count test
may break the loop; a raise unwinds. -/
def pageLoop (site : Site) (maxJobs : Option Nat) (pageLimit : Nat) :
    Nat → Nat → CrawlSt → CrawlSt
  | 0, _, st => st
  | fuel + 1, page, st =>
    if pageLimit < page then st
    else
      let st1 := pageNav site page st
      if st1.err.isSome then st1
      else
        let st2 := linkLoop site maxJobs
          (collect_job_links_on_page (site.anchors page)) st1
        if st2.err.isSome then st2
        else if maxReached maxJobs st2.jobs.length then st2
        else pageLoop site maxJobs pageLimit fuel (page + 1) st2

/-- The crawl result assembled on success; the count equals the length of
the jobs list by construction (the wall-clock timestamp of the meta field
is outside the model). -/
structure CrawlResult where
  field : String
  region : String
  count : Nat
  jobs : List Job

/-- The prelude of the try block: first navigation, consent dismissal,
readiness wait. -/
def preSt (site : Site) : CrawlSt :=
  guardErr (waitBodyStep site 1)
    (guardErr consentStep
      (navListStep site 1 { jobs := [], trace := [], err := none }))

/-- The whole try block of scrape_karriere: the prelude, then the page loop
from page one. -/
def crawlBody (site : Site) (pl : Nat) (mj : Option Nat) : CrawlSt :=
  guardErr (pageLoop site mj pl (pl + 1) 1) (preSt site)

/-- scrape_karriere: run the try block, then the finally block releases the
driver exactly once (a raise from quit itself is swallowed there); a
pending exception is rethrown to the caller, otherwise the result record
is assembled. -/
def scrape_karriere (site : Site) (field region : String) (pl : Nat)
    (mj : Option Nat) : Except Exc CrawlResult × List Ev :=
  let st := crawlBody site pl mj
  (match st.err with
   | some e => .error e
   | none => .ok { field := field, region := region,
                   count := st.jobs.length, jobs := st.jobs },
   st.trace ++ [Ev.quit])

/-- Navigation events. -/
def isNavEv : Ev → Bool
  | .navList _ => true
  | _ => false

/-- Quit events. -/
def isQuitEv : Ev → Bool
  | .quit => true
  | _ => false

/-- Every extract event of a trace was issued below the job bound. -/
def extractsBelow (M : Nat) (tr : List Ev) : Prop :=
  ∀ u k, Ev.extract u k ∈ tr → k < M

/-- Every listing navigation recorded in a trace succeeded. -/
def navsOK (site : Site) (tr : List Ev) : Prop :=
  ∀ p, Ev.navList p ∈ tr → site.navOutcome p = none

/-- Every readiness wait recorded in a trace succeeded. -/
def waitsOK (site : Site) (tr : List Ev) : Prop :=
  ∀ p, Ev.waitBody p ∈ tr → site.waitOutcome p = none

/-! ### Concrete sites for counterexamples and witnesses -/

/-- A record with only the link set, as _extract_job returns when no field
is found. -/
def dupJob (u : String) : Job :=
  { title := none, company := none, location := none, posted_at := none,
    link := u, description := none }

/-- A site whose every listing page carries the same single canonical
detail link, and whose extractions all succeed. -/
def siteDupLink : Site :=
  { navOutcome := fun _ => none, waitOutcome := fun _ => none,
    anchors := fun _ => [some "https://www.karriere.at/jobs/1"],
    extract := fun u => .ok (some (dupJob u)) }

/-- C1 (counterexample): the same canonical detail URL is reachable from
listing pages one and two (collected by the link collector on each page),
and the crawl yields TWO job records for it — no set of already enqueued or
visited links is maintained across listing pages. -/
theorem cross_page_duplicate_counterexample :
    (scrape_karriere siteDupLink "f" "r" 2 none).1
      = .ok { field := "f", region := "r", count := 2,
              jobs := [dupJob "https://www.karriere.at/jobs/1",
                       dupJob "https://www.karriere.at/jobs/1"] } := rfl

/-- A site whose second listing navigation times out and which otherwise
succeeds with empty pages. -/
def siteNav2Timeout : Site :=
  { navOutcome := fun p => if p = 2 then some Exc.timeout else none,
    waitOutcome := fun _ => none,
    anchors := fun _ => [],
    extract := fun _ => .ok none }

/-- C4 (counterexample): a timeout on the SECOND listing-page navigation —
after a successful first navigation — aborts the whole crawl with an error
instead of being tolerated: the page loop has no exception handler. -/
theorem listing_timeout_page2_counterexample :
    (scrape_karriere siteNav2Timeout "f" "r" 2 none).1 = .error Exc.timeout ∧
    Ev.navList 1 ∈ (scrape_karriere siteNav2Timeout "f" "r" 2 none).2 ∧
    Ev.navList 2 ∈ (scrape_karriere siteNav2Timeout "f" "r" 2 none).2 :=
  ⟨rfl, by decide, by decide⟩

/-- A detail page whose title fallback lookup raises a non-timeout
exception. -/
def pgRaises : DetailPage :=
  { navWait := none, scripts := [], titleL := .raised Exc.other,
    companyL := .absent, locationL := .absent, descriptionL := .absent,
    postedL := .absent }

/-- A site whose single detail page raises a non-timeout exception in the
title fallback of _extract_job. -/
def siteFieldRaise : Site :=
  { navOutcome := fun _ => none, waitOutcome := fun _ => none,
    anchors := fun _ => [some "https://www.karriere.at/jobs/1"],
    extract := fun u => extract_job id pgRaises u }

/-- C5 (counterexample): a NON-timeout exception raised while extracting an
individual field (the title fallback) is not caught locally: extractJob
propagates it instead of leaving the field absent, and the crawl aborts
with that exception — a crawl-level failure. -/
theorem field_exception_propagates_counterexample :
    extract_job id pgRaises "https://www.karriere.at/jobs/1"
        = .error Exc.other ∧
      (scrape_karriere siteFieldRaise "f" "r" 1 none).1 = .error Exc.other :=
  ⟨rfl, rfl⟩

/-- A site with one empty listing page and no faults. -/
def siteOK : Site :=
  { navOutcome := fun _ => none, waitOutcome := fun _ => none,
    anchors := fun _ => [], extract := fun _ => .ok none }

/-! ### Step lemmas -/

/-- The prelude takes one of three shapes, depending on which of the two
fallible operations raises first. -/
theorem preSt_cases (site : Site) :
    (∃ e, site.navOutcome 1 = some e ∧
      preSt site = { jobs := [], trace := [Ev.navList 1], err := some e }) ∨
    (∃ e, site.navOutcome 1 = none ∧ site.waitOutcome 1 = some e ∧
      preSt site
        = { jobs := [],
            trace := [Ev.navList 1, Ev.consent, Ev.waitBody 1],
            err := some e }) ∨
    (site.navOutcome 1 = none ∧ site.waitOutcome 1 = none ∧
      preSt site
        = { jobs := [],
            trace := [Ev.navList 1, Ev.consent, Ev.waitBody 1],
            err := none }) := by
  cases h1 : site.navOutcome 1 with
  | some e =>
    left
    exact ⟨e, rfl,
      by simp [preSt, guardErr, navListStep, consentStep, waitBodyStep, h1]⟩
  | none =>
    cases h2 : site.waitOutcome 1 with
    | some e =>
      right; left
      exact ⟨e, rfl, rfl,
        by simp [preSt, guardErr, navListStep, consentStep, waitBodyStep, h1, h2]⟩
    | none =>
      right; right
      exact ⟨rfl, rfl,
        by simp [preSt, guardErr, navListStep, consentStep, waitBodyStep, h1, h2]⟩

/-- Unfolding of the per-link loop when the extraction raises. -/
theorem linkLoop_cons_error (site : Site) (mj : Option Nat) (link : String)
    (rest : List String) (st : CrawlSt) (e : Exc)
    (hx : site.extract link = .error e) :
    linkLoop site mj (link :: rest) st
      = { jobs := st.jobs,
          trace := st.trace ++ [Ev.extract link st.jobs.length],
          err := some e } := by
  conv_lhs => rw [linkLoop]
  rw [hx]

/-- Unfolding of the per-link loop when the extraction skips (timeout). -/
theorem linkLoop_cons_none (site : Site) (mj : Option Nat) (link : String)
    (rest : List String) (st : CrawlSt)
    (hx : site.extract link = .ok none) :
    linkLoop site mj (link :: rest) st
      = linkLoop site mj rest
          { st with trace := st.trace ++ [Ev.extract link st.jobs.length] } := by
  conv_lhs => rw [linkLoop]
  rw [hx]

/-- Unfolding of the per-link loop when the extraction yields a record. -/
theorem linkLoop_cons_some (site : Site) (mj : Option Nat) (link : String)
    (rest : List String) (st : CrawlSt) (job : Job)
    (hx : site.extract link = .ok (some job)) :
    linkLoop site mj (link :: rest) st
      = (if maxReached mj (st.jobs ++ [job]).length then
          { jobs := st.jobs ++ [job],
            trace := st.trace ++ [Ev.extract link st.jobs.length],
            err := st.err }
        else
          linkLoop site mj rest
            { jobs := st.jobs ++ [job],
              trace := st.trace ++ [Ev.extract link st.jobs.length],
              err := st.err }) := by
  conv_lhs => rw [linkLoop]
  rw [hx]

/-- A non-extract event is not hidden in an appended extract event. -/
theorem mem_append_singleton_elim {a b : Ev} {tr : List Ev}
    (h : a ∈ tr ++ [b]) (hne : a ≠ b) : a ∈ tr := by
  rcases List.mem_append.mp h with h | h
  · exact h
  · rw [List.mem_singleton] at h; exact absurd h hne

/-- The per-link loop never touches navigation, wait, consent or quit
events: any count of such events is unchanged. -/
theorem linkLoop_countP (site : Site) (mj : Option Nat) (p : Ev → Bool)
    (hp : ∀ u k, p (Ev.extract u k) = false) :
    ∀ (ls : List String) (st : CrawlSt),
      ((linkLoop site mj ls st).trace.countP p) = st.trace.countP p := by
  intro ls
  induction ls with
  | nil => intro st; rfl
  | cons link rest ih =>
    intro st
    cases hx : site.extract link with
    | error e =>
      rw [linkLoop_cons_error site mj link rest st e hx]
      simp [List.countP_append, List.countP_cons, hp link st.jobs.length]
    | ok r =>
      cases r with
      | none =>
        rw [linkLoop_cons_none site mj link rest st hx, ih]
        simp [List.countP_append, List.countP_cons, hp link st.jobs.length]
      | some job =>
        rw [linkLoop_cons_some site mj link rest st job hx]
        by_cases hm : maxReached mj (st.jobs ++ [job]).length = true
        · rw [if_pos hm]
          simp [List.countP_append, List.countP_cons, hp link st.jobs.length]
        · rw [if_neg hm, ih]
          simp [List.countP_append, List.countP_cons, hp link st.jobs.length]

/-- The per-link loop appends extract events only, so recorded navigations
and waits are untouched; and it never clears the error field, so a clean
exit implies a clean entry. -/
theorem linkLoop_opsOK (site : Site) (mj : Option Nat) :
    ∀ (ls : List String) (st : CrawlSt),
      ((linkLoop site mj ls st).err = none → st.err = none) ∧
      (∀ q, Ev.navList q ∈ (linkLoop site mj ls st).trace →
        Ev.navList q ∈ st.trace) ∧
      (∀ q, Ev.waitBody q ∈ (linkLoop site mj ls st).trace →
        Ev.waitBody q ∈ st.trace) := by
  intro ls
  induction ls with
  | nil => intro st; exact ⟨fun h => h, fun _ h => h, fun _ h => h⟩
  | cons link rest ih =>
    intro st
    cases hx : site.extract link with
    | error e =>
      rw [linkLoop_cons_error site mj link rest st e hx]
      refine ⟨fun h => Option.noConfusion h, ?_, ?_⟩
      · intro q hq
        exact mem_append_singleton_elim hq (fun hh => Ev.noConfusion hh)
      · intro q hq
        exact mem_append_singleton_elim hq (fun hh => Ev.noConfusion hh)
    | ok r =>
      cases r with
      | none =>
        rw [linkLoop_cons_none site mj link rest st hx]
        obtain ⟨ihe, ihn, ihw⟩ :=
          ih { st with trace := st.trace ++ [Ev.extract link st.jobs.length] }
        refine ⟨fun h => ihe h, ?_, ?_⟩
        · intro q hq
          exact mem_append_singleton_elim (ihn q hq) (fun hh => Ev.noConfusion hh)
        · intro q hq
          exact mem_append_singleton_elim (ihw q hq) (fun hh => Ev.noConfusion hh)
      | some job =>
        rw [linkLoop_cons_some site mj link rest st job hx]
        by_cases hm : maxReached mj (st.jobs ++ [job]).length = true
        · rw [if_pos hm]
          refine ⟨fun h => h, ?_, ?_⟩
          · intro q hq
            exact mem_append_singleton_elim hq (fun hh => Ev.noConfusion hh)
          · intro q hq
            exact mem_append_singleton_elim hq (fun hh => Ev.noConfusion hh)
        · rw [if_neg hm]
          obtain ⟨ihe, ihn, ihw⟩ :=
            ih { jobs := st.jobs ++ [job],
                 trace := st.trace ++ [Ev.extract link st.jobs.length],
                 err := st.err }
          refine ⟨fun h => ihe h, ?_, ?_⟩
          · intro q hq
            exact mem_append_singleton_elim (ihn q hq) (fun hh => Ev.noConfusion hh)
          · intro q hq
            exact mem_append_singleton_elim (ihw q hq) (fun hh => Ev.noConfusion hh)

/-- A navigation step leaves the jobs untouched. -/
theorem navListStep_jobs (site : Site) (p : Nat) (st : CrawlSt) :
    (navListStep site p st).jobs = st.jobs := by
  unfold navListStep
  cases h : site.navOutcome p <;> rfl

/-- A navigation step appends exactly its navigation event. -/
theorem navListStep_trace (site : Site) (p : Nat) (st : CrawlSt) :
    (navListStep site p st).trace = st.trace ++ [Ev.navList p] := by
  unfold navListStep
  cases h : site.navOutcome p <;> rfl

/-- A navigation step exits cleanly only when it was entered cleanly and
the navigation succeeded. -/
theorem navListStep_err_none (site : Site) (p : Nat) (st : CrawlSt)
    (h : (navListStep site p st).err = none) :
    st.err = none ∧ site.navOutcome p = none := by
  unfold navListStep at h
  cases ho : site.navOutcome p with
  | some e => rw [ho] at h; exact Option.noConfusion h
  | none => rw [ho] at h; exact ⟨h, rfl⟩

/-- A wait step leaves the jobs untouched. -/
theorem waitBodyStep_jobs (site : Site) (p : Nat) (st : CrawlSt) :
    (waitBodyStep site p st).jobs = st.jobs := by
  unfold waitBodyStep
  cases h : site.waitOutcome p <;> rfl

/-- A wait step appends exactly its wait event. -/
theorem waitBodyStep_trace (site : Site) (p : Nat) (st : CrawlSt) :
    (waitBodyStep site p st).trace = st.trace ++ [Ev.waitBody p] := by
  unfold waitBodyStep
  cases h : site.waitOutcome p <;> rfl

/-- A wait step exits cleanly only when it was entered cleanly and the wait
succeeded. -/
theorem waitBodyStep_err_none (site : Site) (p : Nat) (st : CrawlSt)
    (h : (waitBodyStep site p st).err = none) :
    st.err = none ∧ site.waitOutcome p = none := by
  unfold waitBodyStep at h
  cases ho : site.waitOutcome p with
  | some e => rw [ho] at h; exact Option.noConfusion h
  | none => rw [ho] at h; exact ⟨h, rfl⟩

/-- The page-navigation step leaves the jobs untouched. -/
theorem pageNav_jobs (site : Site) (page : Nat) (st : CrawlSt) :
    (pageNav site page st).jobs = st.jobs := by
  unfold pageNav guardErr
  by_cases h2 : 1 < page
  · rw [if_pos h2]
    by_cases he : (navListStep site page st).err.isSome = true
    · rw [if_pos he]; exact navListStep_jobs site page st
    · rw [if_neg he, waitBodyStep_jobs, navListStep_jobs]
  · rw [if_neg h2]

/-- Any event count untouched by navigation and wait events is unchanged by
the page-navigation step. -/
theorem pageNav_countP (site : Site) (page : Nat) (st : CrawlSt) (p : Ev → Bool)
    (hpN : ∀ n, p (Ev.navList n) = false)
    (hpW : ∀ n, p (Ev.waitBody n) = false) :
    ((pageNav site page st).trace.countP p) = st.trace.countP p := by
  unfold pageNav guardErr
  by_cases h2 : 1 < page
  · rw [if_pos h2]
    by_cases he : (navListStep site page st).err.isSome = true
    · rw [if_pos he, navListStep_trace]
      simp [List.countP_append, List.countP_cons, hpN page]
    · rw [if_neg he, waitBodyStep_trace, navListStep_trace]
      simp [List.countP_append, List.countP_cons, hpN page, hpW page]
  · rw [if_neg h2]

/-- The page-navigation step adds at most one navigation event. -/
theorem pageNav_navCount (site : Site) (page : Nat) (st : CrawlSt) :
    ((pageNav site page st).trace.countP isNavEv)
      ≤ st.trace.countP isNavEv + 1 := by
  unfold pageNav guardErr
  by_cases h2 : 1 < page
  · rw [if_pos h2]
    by_cases he : (navListStep site page st).err.isSome = true
    · rw [if_pos he, navListStep_trace]
      simp [List.countP_append, List.countP_cons, isNavEv]
    · rw [if_neg he, waitBodyStep_trace, navListStep_trace]
      simp [List.countP_append, List.countP_cons, isNavEv]
  · rw [if_neg h2]; omega

/-- Below page two, the page-navigation step is the identity. -/
theorem pageNav_id (site : Site) (page : Nat) (st : CrawlSt)
    (h2 : ¬ 1 < page) : pageNav site page st = st := by
  unfold pageNav
  rw [if_neg h2]

/-- An extract bound on the trace survives appending a non-extract event. -/
theorem extractsBelow_append_single (M : Nat) (tr : List Ev) (e : Ev)
    (h : extractsBelow M tr) (hne : ∀ u k, e ≠ Ev.extract u k) :
    extractsBelow M (tr ++ [e]) := by
  intro u k hk
  rcases List.mem_append.mp hk with hk | hk
  · exact h u k hk
  · rw [List.mem_singleton] at hk
    exact absurd hk.symm (hne u k)

/-- The page-navigation step issues no extraction. -/
theorem pageNav_extractsBelow (site : Site) (page : Nat) (st : CrawlSt)
    (M : Nat) (h : extractsBelow M st.trace) :
    extractsBelow M (pageNav site page st).trace := by
  unfold pageNav guardErr
  by_cases h2 : 1 < page
  · rw [if_pos h2]
    by_cases he : (navListStep site page st).err.isSome = true
    · rw [if_pos he, navListStep_trace]
      exact extractsBelow_append_single M _ _ h (fun u k hh => Ev.noConfusion hh)
    · rw [if_neg he, waitBodyStep_trace, navListStep_trace]
      refine extractsBelow_append_single M _ _ ?_ (fun u k hh => Ev.noConfusion hh)
      exact extractsBelow_append_single M _ _ h (fun u k hh => Ev.noConfusion hh)
  · rw [if_neg h2]; exact h

/-- The page-navigation step preserves the success record of navigations
and waits. -/
theorem pageNav_opsOK (site : Site) (page : Nat) (st : CrawlSt)
    (hok : st.err = none → navsOK site st.trace ∧ waitsOK site st.trace) :
    (pageNav site page st).err = none →
      navsOK site (pageNav site page st).trace ∧
        waitsOK site (pageNav site page st).trace := by
  unfold pageNav guardErr
  by_cases h2 : 1 < page
  · rw [if_pos h2]
    by_cases he : (navListStep site page st).err.isSome = true
    · rw [if_pos he]
      intro hnone
      rw [hnone] at he
      exact absurd he (by simp)
    · rw [if_neg he]
      intro hnone
      obtain ⟨hnav_none, hwout⟩ := waitBodyStep_err_none site page _ hnone
      obtain ⟨hst_none, hnout⟩ := navListStep_err_none site page st hnav_none
      obtain ⟨hn, hw⟩ := hok hst_none
      rw [waitBodyStep_trace, navListStep_trace]
      constructor
      · intro q hq
        rcases List.mem_append.mp hq with hq | hq
        · rcases List.mem_append.mp hq with hq | hq
          · exact hn q hq
          · rw [List.mem_singleton] at hq
            injection hq with hq1
            subst hq1
            exact hnout
        · rw [List.mem_singleton] at hq
          exact Ev.noConfusion hq
      · intro q hq
        rcases List.mem_append.mp hq with hq | hq
        · rcases List.mem_append.mp hq with hq | hq
          · exact hw q hq
          · rw [List.mem_singleton] at hq
            exact Ev.noConfusion hq
        · rw [List.mem_singleton] at hq
          injection hq with hq1
          subst hq1
          exact hwout
  · rw [if_neg h2]; exact hok

/-- One unfolding of the page loop. -/
theorem pageLoop_succ (site : Site) (mj : Option Nat) (pl fuel page : Nat)
    (st : CrawlSt) :
    pageLoop site mj pl (fuel + 1) page st
      = if pl < page then st
        else if (pageNav site page st).err.isSome then pageNav site page st
        else if (linkLoop site mj (collect_job_links_on_page (site.anchors page))
              (pageNav site page st)).err.isSome then
            linkLoop site mj (collect_job_links_on_page (site.anchors page))
              (pageNav site page st)
          else if maxReached mj (linkLoop site mj
                (collect_job_links_on_page (site.anchors page))
                (pageNav site page st)).jobs.length then
            linkLoop site mj (collect_job_links_on_page (site.anchors page))
              (pageNav site page st)
          else pageLoop site mj pl fuel (page + 1)
            (linkLoop site mj (collect_job_links_on_page (site.anchors page))
              (pageNav site page st)) := rfl

/-- The page loop never touches quit or consent counts (any count of
events other than navigation, wait and extract is unchanged). -/
theorem pageLoop_countP (site : Site) (mj : Option Nat) (pl : Nat)
    (p : Ev → Bool)
    (hpE : ∀ u k, p (Ev.extract u k) = false)
    (hpN : ∀ n, p (Ev.navList n) = false)
    (hpW : ∀ n, p (Ev.waitBody n) = false) :
    ∀ (fuel page : Nat) (st : CrawlSt),
      ((pageLoop site mj pl fuel page st).trace.countP p)
        = st.trace.countP p := by
  intro fuel
  induction fuel with
  | zero => intro page st; rfl
  | succ fuel ih =>
    intro page st
    rw [pageLoop_succ]
    by_cases h1 : pl < page
    · rw [if_pos h1]
    · rw [if_neg h1]
      have hnav := pageNav_countP site page st p hpN hpW
      have hll := linkLoop_countP site mj p hpE
        (collect_job_links_on_page (site.anchors page)) (pageNav site page st)
      by_cases h2 : (pageNav site page st).err.isSome = true
      · rw [if_pos h2]; exact hnav
      · rw [if_neg h2]
        by_cases h3 : (linkLoop site mj
            (collect_job_links_on_page (site.anchors page))
            (pageNav site page st)).err.isSome = true
        · rw [if_pos h3, hll, hnav]
        · rw [if_neg h3]
          by_cases h4 : maxReached mj (linkLoop site mj
              (collect_job_links_on_page (site.anchors page))
              (pageNav site page st)).jobs.length = true
          · rw [if_pos h4, hll, hnav]
          · rw [if_neg h4, ih, hll, hnav]

/-- The page loop starting at any page issues at most
pageLimit + 1 - max page 2 navigations. -/
theorem pageLoop_nav_bound (site : Site) (mj : Option Nat) (pl : Nat) :
    ∀ (fuel page : Nat) (st : CrawlSt),
      ((pageLoop site mj pl fuel page st).trace.countP isNavEv)
        ≤ st.trace.countP isNavEv + (pl + 1 - max page 2) := by
  intro fuel
  induction fuel with
  | zero => intro page st; simp [pageLoop]
  | succ fuel ih =>
    intro page st
    rw [pageLoop_succ]
    by_cases h1 : pl < page
    · rw [if_pos h1]; omega
    · rw [if_neg h1]
      have hll := linkLoop_countP site mj isNavEv (fun _ _ => rfl)
        (collect_job_links_on_page (site.anchors page)) (pageNav site page st)
      by_cases hp2 : 1 < page
      · have hmx : max page 2 = page := Nat.max_eq_left hp2
        have hmx2 : max (page + 1) 2 = page + 1 := Nat.max_eq_left (by omega)
        have hnav := pageNav_navCount site page st
        by_cases h2 : (pageNav site page st).err.isSome = true
        · rw [if_pos h2, hmx]; omega
        · rw [if_neg h2]
          by_cases h3 : (linkLoop site mj
              (collect_job_links_on_page (site.anchors page))
              (pageNav site page st)).err.isSome = true
          · rw [if_pos h3, hll, hmx]; omega
          · rw [if_neg h3]
            by_cases h4 : maxReached mj (linkLoop site mj
                (collect_job_links_on_page (site.anchors page))
                (pageNav site page st)).jobs.length = true
            · rw [if_pos h4, hll, hmx]; omega
            · rw [if_neg h4]
              have hrec := ih (page + 1) (linkLoop site mj
                (collect_job_links_on_page (site.anchors page))
                (pageNav site page st))
              rw [hmx2] at hrec
              rw [hll] at hrec
              rw [hmx]
              omega
      · have hN := pageNav_id site page st hp2
        have hmx : max page 2 = 2 := Nat.max_eq_right (by omega)
        have hmx2 : max (page + 1) 2 = 2 := Nat.max_eq_right (by omega)
        rw [hN]
        by_cases h2 : st.err.isSome = true
        · rw [if_pos h2]; omega
        · rw [if_neg h2]
          rw [hN] at hll
          by_cases h3 : (linkLoop site mj
              (collect_job_links_on_page (site.anchors page)) st).err.isSome
              = true
          · rw [if_pos h3, hll]; omega
          · rw [if_neg h3]
            by_cases h4 : maxReached mj (linkLoop site mj
                (collect_job_links_on_page (site.anchors page))
                st).jobs.length = true
            · rw [if_pos h4, hll]; omega
            · rw [if_neg h4]
              have hrec := ih (page + 1) (linkLoop site mj
                (collect_job_links_on_page (site.anchors page)) st)
              rw [hmx2] at hrec
              rw [hll] at hrec
              rw [hmx]
              omega

/-- With a nonzero bound M, the per-link loop keeps the job count at or
below M, and every extraction it issues happens strictly below M. -/
theorem linkLoop_maxJobs (site : Site) (M : Nat) (hM : M ≠ 0) :
    ∀ (ls : List String) (st : CrawlSt),
      st.jobs.length < M → extractsBelow M st.trace →
      ((linkLoop site (some M) ls st).jobs.length ≤ M ∧
        extractsBelow M (linkLoop site (some M) ls st).trace) := by
  intro ls
  induction ls with
  | nil => intro st hlt hext; exact ⟨Nat.le_of_lt hlt, hext⟩
  | cons link rest ih =>
    intro st hlt hext
    have hext2 : extractsBelow M (st.trace ++ [Ev.extract link st.jobs.length]) := by
      intro u k hk
      rcases List.mem_append.mp hk with h | h
      · exact hext u k h
      · rw [List.mem_singleton] at h
        injection h with h1 h2
        subst h2
        exact hlt
    cases hx : site.extract link with
    | error e =>
      rw [linkLoop_cons_error site (some M) link rest st e hx]
      exact ⟨Nat.le_of_lt hlt, hext2⟩
    | ok r =>
      cases r with
      | none =>
        rw [linkLoop_cons_none site (some M) link rest st hx]
        exact ih _ hlt hext2
      | some job =>
        rw [linkLoop_cons_some site (some M) link rest st job hx]
        have hlen : (st.jobs ++ [job]).length = st.jobs.length + 1 := by simp
        by_cases hm : maxReached (some M) (st.jobs ++ [job]).length = true
        · rw [if_pos hm]
          refine ⟨?_, hext2⟩
          rw [hlen]; omega
        · rw [if_neg hm]
          have hlt2 : (st.jobs ++ [job]).length < M := by
            by_contra hge
            push_neg at hge
            apply hm
            unfold maxReached
            simp [hM]
            omega
          exact ih _ hlt2 hext2

/-- With a nonzero bound M, the page loop keeps the job count at or below M
and issues every extraction strictly below M. -/
theorem pageLoop_maxJobs (site : Site) (M pl : Nat) (hM : M ≠ 0) :
    ∀ (fuel page : Nat) (st : CrawlSt),
      st.jobs.length < M → extractsBelow M st.trace →
      ((pageLoop site (some M) pl fuel page st).jobs.length ≤ M ∧
        extractsBelow M (pageLoop site (some M) pl fuel page st).trace) := by
  intro fuel
  induction fuel with
  | zero => intro page st hlt hext; exact ⟨Nat.le_of_lt hlt, hext⟩
  | succ fuel ih =>
    intro page st hlt hext
    rw [pageLoop_succ]
    by_cases h1 : pl < page
    · rw [if_pos h1]; exact ⟨Nat.le_of_lt hlt, hext⟩
    · rw [if_neg h1]
      have hNlt : (pageNav site page st).jobs.length < M := by
        rw [pageNav_jobs]; exact hlt
      have hNext : extractsBelow M (pageNav site page st).trace :=
        pageNav_extractsBelow site page st M hext
      obtain ⟨hLle, hLext⟩ := linkLoop_maxJobs site M hM
        (collect_job_links_on_page (site.anchors page))
        (pageNav site page st) hNlt hNext
      by_cases h2 : (pageNav site page st).err.isSome = true
      · rw [if_pos h2]; exact ⟨Nat.le_of_lt hNlt, hNext⟩
      · rw [if_neg h2]
        by_cases h3 : (linkLoop site (some M)
            (collect_job_links_on_page (site.anchors page))
            (pageNav site page st)).err.isSome = true
        · rw [if_pos h3]; exact ⟨hLle, hLext⟩
        · rw [if_neg h3]
          by_cases h4 : maxReached (some M) (linkLoop site (some M)
              (collect_job_links_on_page (site.anchors page))
              (pageNav site page st)).jobs.length = true
          · rw [if_pos h4]; exact ⟨hLle, hLext⟩
          · rw [if_neg h4]
            have hlt2 : (linkLoop site (some M)
                (collect_job_links_on_page (site.anchors page))
                (pageNav site page st)).jobs.length < M := by
              by_contra hge
              push_neg at hge
              apply h4
              unfold maxReached
              simp [hM, hge]
            exact ih (page + 1) _ hlt2 hLext

/-- The page loop preserves the success record of navigations and waits on
clean exits. -/
theorem pageLoop_opsOK (site : Site) (mj : Option Nat) (pl : Nat) :
    ∀ (fuel page : Nat) (st : CrawlSt),
      (st.err = none → navsOK site st.trace ∧ waitsOK site st.trace) →
      ((pageLoop site mj pl fuel page st).err = none →
        navsOK site (pageLoop site mj pl fuel page st).trace ∧
          waitsOK site (pageLoop site mj pl fuel page st).trace) := by
  intro fuel
  induction fuel with
  | zero => intro page st hok; exact hok
  | succ fuel ih =>
    intro page st hok
    rw [pageLoop_succ]
    by_cases h1 : pl < page
    · rw [if_pos h1]; exact hok
    · rw [if_neg h1]
      have hNok := pageNav_opsOK site page st hok
      obtain ⟨hLerr, hLnav, hLwait⟩ := linkLoop_opsOK site mj
        (collect_job_links_on_page (site.anchors page)) (pageNav site page st)
      have hLok : (linkLoop site mj
          (collect_job_links_on_page (site.anchors page))
          (pageNav site page st)).err = none →
          navsOK site (linkLoop site mj
            (collect_job_links_on_page (site.anchors page))
            (pageNav site page st)).trace ∧
          waitsOK site (linkLoop site mj
            (collect_job_links_on_page (site.anchors page))
            (pageNav site page st)).trace := by
        intro hnone
        obtain ⟨hn, hw⟩ := hNok (hLerr hnone)
        exact ⟨fun q hq => hn q (hLnav q hq), fun q hq => hw q (hLwait q hq)⟩
      by_cases h2 : (pageNav site page st).err.isSome = true
      · rw [if_pos h2]; exact hNok
      · rw [if_neg h2]
        by_cases h3 : (linkLoop site mj
            (collect_job_links_on_page (site.anchors page))
            (pageNav site page st)).err.isSome = true
        · rw [if_pos h3]; exact hLok
        · rw [if_neg h3]
          by_cases h4 : maxReached mj (linkLoop site mj
              (collect_job_links_on_page (site.anchors page))
              (pageNav site page st)).jobs.length = true
          · rw [if_pos h4]; exact hLok
          · rw [if_neg h4]; exact ih (page + 1) _ hLok

/-- The zero job bound and the absent job bound give the same stopping
test. -/
theorem maxReached_zero_eq_none (n : Nat) :
    maxReached (some 0) n = maxReached none n := rfl

/-- The per-link loop cannot tell the zero bound from no bound. -/
theorem linkLoop_mj_zero (site : Site) :
    ∀ (ls : List String) (st : CrawlSt),
      linkLoop site (some 0) ls st = linkLoop site none ls st := by
  intro ls
  induction ls with
  | nil => intro st; rfl
  | cons link rest ih =>
    intro st
    cases hx : site.extract link with
    | error e =>
      rw [linkLoop_cons_error site (some 0) link rest st e hx,
        linkLoop_cons_error site none link rest st e hx]
    | ok r =>
      cases r with
      | none =>
        rw [linkLoop_cons_none site (some 0) link rest st hx,
          linkLoop_cons_none site none link rest st hx, ih]
      | some job =>
        rw [linkLoop_cons_some site (some 0) link rest st job hx,
          linkLoop_cons_some site none link rest st job hx]
        have hf0 : maxReached (some 0) ((st.jobs ++ [job]).length) = false := rfl
        have hfn : maxReached none ((st.jobs ++ [job]).length) = false := rfl
        rw [hf0, hfn, if_neg Bool.false_ne_true, if_neg Bool.false_ne_true, ih]

/-- The page loop cannot tell the zero bound from no bound. -/
theorem pageLoop_mj_zero (site : Site) (pl : Nat) :
    ∀ (fuel page : Nat) (st : CrawlSt),
      pageLoop site (some 0) pl fuel page st
        = pageLoop site none pl fuel page st := by
  intro fuel
  induction fuel with
  | zero => intro page st; rfl
  | succ fuel ih =>
    intro page st
    rw [pageLoop_succ, pageLoop_succ, linkLoop_mj_zero,
      maxReached_zero_eq_none, ih (page + 1)]

/-- The try block is the prelude followed by the guarded page loop. -/
theorem crawlBody_eq (site : Site) (pl : Nat) (mj : Option Nat) :
    crawlBody site pl mj
      = if (preSt site).err.isSome then preSt site
        else pageLoop site mj pl (pl + 1) 1 (preSt site) := rfl

/-- The result component of the crawl is determined by the try block. -/
theorem scrape_fst_eq (site : Site) (field region : String) (pl : Nat)
    (mj : Option Nat) :
    (scrape_karriere site field region pl mj).1
      = (match (crawlBody site pl mj).err with
         | some e => Except.error e
         | none =>
            Except.ok { field := field, region := region,
                        count := (crawlBody site pl mj).jobs.length,
                        jobs := (crawlBody site pl mj).jobs }) := rfl

/-- The trace of the crawl is the try-block trace plus the final quit. -/
theorem scrape_snd_eq (site : Site) (field region : String) (pl : Nat)
    (mj : Option Nat) :
    (scrape_karriere site field region pl mj).2
      = (crawlBody site pl mj).trace ++ [Ev.quit] := rfl

/-- The prelude carries no jobs and no extract events. -/
theorem preSt_start (site : Site) (M : Nat) :
    (preSt site).jobs = [] ∧ extractsBelow M (preSt site).trace := by
  rcases preSt_cases site with ⟨e, _, hp⟩ | ⟨e, _, _, hp⟩ | ⟨_, _, hp⟩ <;>
    rw [hp] <;>
      exact ⟨rfl, by intro u k hk; simp at hk⟩

/-- C3: with maxJobs = M ≥ 1 set, the crawl result holds at most M jobs
(its count field equals the length of the jobs sequence by construction),
and every extraction is issued at a moment when fewer than M jobs are
accumulated — once the count reaches M no further extraction happens, in
the per-link loop or in any later page of the page loop. -/
theorem maxJobs_bound_and_stop (site : Site) (field region : String)
    (pl M : Nat) (hM : 1 ≤ M) :
    (∀ res, (scrape_karriere site field region pl (some M)).1 = .ok res →
      res.count ≤ M ∧ res.jobs.length ≤ M) ∧
    (∀ u k, Ev.extract u k ∈ (scrape_karriere site field region pl (some M)).2 →
      k < M) := by
  have hMne : M ≠ 0 := by omega
  obtain ⟨hpj, hpe⟩ := preSt_start site M
  have hbody : (crawlBody site pl (some M)).jobs.length ≤ M ∧
      extractsBelow M (crawlBody site pl (some M)).trace := by
    rw [crawlBody_eq]
    by_cases h : (preSt site).err.isSome = true
    · rw [if_pos h]
      refine ⟨?_, hpe⟩
      rw [hpj]
      simp
    · rw [if_neg h]
      refine pageLoop_maxJobs site M pl hMne (pl + 1) 1 (preSt site) ?_ hpe
      rw [hpj]
      simp
      omega
  constructor
  · intro res hres
    rw [scrape_fst_eq] at hres
    cases herr : (crawlBody site pl (some M)).err with
    | some e =>
      rw [herr] at hres
      exact Except.noConfusion hres
    | none =>
      rw [herr] at hres
      injection hres with h2
      subst h2
      exact ⟨hbody.1, hbody.1⟩
  · intro u k hk
    rw [scrape_snd_eq] at hk
    rcases List.mem_append.mp hk with hk | hk
    · exact hbody.2 u k hk
    · rw [List.mem_singleton] at hk
      exact Ev.noConfusion hk

/-- Witness for C3 at a concrete site with a one-job bound. -/
theorem maxJobs_bound_and_stop_witness :
    (∀ res, (scrape_karriere siteDupLink "f" "r" 2 (some 1)).1 = .ok res →
      res.count ≤ 1 ∧ res.jobs.length ≤ 1) ∧
    (∀ u k, Ev.extract u k ∈ (scrape_karriere siteDupLink "f" "r" 2 (some 1)).2 →
      k < 1) :=
  maxJobs_bound_and_stop siteDupLink "f" "r" 2 1 (by omega)

/-- The prelude records exactly one navigation (of page one). -/
theorem preSt_navCount (site : Site) :
    ((preSt site).trace.countP isNavEv) = 1 := by
  rcases preSt_cases site with ⟨e, _, hp⟩ | ⟨e, _, _, hp⟩ | ⟨_, _, hp⟩ <;>
    rw [hp] <;> rfl

/-- C7: for every crawl, at most pageLimit listing-page navigations are
issued — the initial navigation plus one per page from two to pageLimit,
fewer on an early exit. -/
theorem nav_count_at_most_page_limit (site : Site) (field region : String)
    (pl : Nat) (mj : Option Nat) (hpl : 1 ≤ pl) :
    ((scrape_karriere site field region pl mj).2.countP isNavEv) ≤ pl := by
  have hpre1 := preSt_navCount site
  have hbody : ((crawlBody site pl mj).trace.countP isNavEv) ≤ pl := by
    rw [crawlBody_eq]
    by_cases h : (preSt site).err.isSome = true
    · rw [if_pos h]; omega
    · rw [if_neg h]
      have hb := pageLoop_nav_bound site mj pl (pl + 1) 1 (preSt site)
      have hmx : max 1 2 = 2 := rfl
      rw [hmx] at hb
      omega
  rw [scrape_snd_eq, List.countP_append]
  have hq : (List.countP isNavEv [Ev.quit]) = 0 := rfl
  omega

/-- Witness for C7 at a concrete fault-free site. -/
theorem nav_count_at_most_page_limit_witness :
    ((scrape_karriere siteOK "f" "r" 1 none).2.countP isNavEv) ≤ 1 :=
  nav_count_at_most_page_limit siteOK "f" "r" 1 none (by omega)

/-- The prelude records no quit event. -/
theorem preSt_quitCount (site : Site) :
    ((preSt site).trace.countP isQuitEv) = 0 := by
  rcases preSt_cases site with ⟨e, _, hp⟩ | ⟨e, _, _, hp⟩ | ⟨_, _, hp⟩ <;>
    rw [hp] <;> rfl

/-- C8: the rendering session is released exactly once on every exit path —
for every site behavior (normal completion, early exit via the job bound,
or any fault, including a fatal error on the second listing navigation),
the crawl trace contains exactly one quit event, issued by the finally
block. -/
theorem session_released_exactly_once (site : Site) (field region : String)
    (pl : Nat) (mj : Option Nat) :
    ((scrape_karriere site field region pl mj).2.countP isQuitEv) = 1 := by
  have hbody : ((crawlBody site pl mj).trace.countP isQuitEv) = 0 := by
    rw [crawlBody_eq]
    by_cases h : (preSt site).err.isSome = true
    · rw [if_pos h]; exact preSt_quitCount site
    · rw [if_neg h]
      rw [pageLoop_countP site mj pl isQuitEv (fun _ _ => rfl) (fun _ => rfl)
        (fun _ => rfl) (pl + 1) 1 (preSt site)]
      exact preSt_quitCount site
  rw [scrape_snd_eq, List.countP_append, hbody]
  rfl

/-- The prelude exits cleanly only when its navigation and wait succeeded. -/
theorem preSt_opsOK (site : Site) :
    (preSt site).err = none →
      navsOK site (preSt site).trace ∧ waitsOK site (preSt site).trace := by
  intro hnone
  rcases preSt_cases site with ⟨e, he, hp⟩ | ⟨e, h1, he, hp⟩ | ⟨h1, h2, hp⟩
  · rw [hp] at hnone; exact Option.noConfusion hnone
  · rw [hp] at hnone; exact Option.noConfusion hnone
  · rw [hp]
    constructor
    · intro q hq
      simp at hq
      subst hq
      exact h1
    · intro q hq
      simp at hq
      subst hq
      exact h2

/-- C4 (amended): an exception raised by a listing-page operation on ANY
page — the first or a later one — aborts the crawl: whenever the crawl
returns a result, every listing navigation and readiness wait it issued
had succeeded.  (The spec exempted pages after the first; the
counterexample shows a timeout on page two aborting the crawl.) -/
theorem listing_fault_aborts (site : Site) (field region : String)
    (pl : Nat) (mj : Option Nat) :
    ∀ res, (scrape_karriere site field region pl mj).1 = .ok res →
      (∀ p, Ev.navList p ∈ (scrape_karriere site field region pl mj).2 →
        site.navOutcome p = none) ∧
      (∀ p, Ev.waitBody p ∈ (scrape_karriere site field region pl mj).2 →
        site.waitOutcome p = none) := by
  intro res hres
  have herr : (crawlBody site pl mj).err = none := by
    cases hc : (crawlBody site pl mj).err with
    | none => rfl
    | some e =>
      rw [scrape_fst_eq, hc] at hres
      exact Except.noConfusion hres
  have hbody_ok : navsOK site (crawlBody site pl mj).trace ∧
      waitsOK site (crawlBody site pl mj).trace := by
    rw [crawlBody_eq] at herr ⊢
    by_cases h : (preSt site).err.isSome = true
    · rw [if_pos h] at herr ⊢
      exact preSt_opsOK site herr
    · rw [if_neg h] at herr ⊢
      exact pageLoop_opsOK site mj pl (pl + 1) 1 (preSt site)
        (preSt_opsOK site) herr
  constructor
  · intro p hp
    rw [scrape_snd_eq] at hp
    exact hbody_ok.1 p (mem_append_singleton_elim hp (fun hh => Ev.noConfusion hh))
  · intro p hp
    rw [scrape_snd_eq] at hp
    exact hbody_ok.2 p (mem_append_singleton_elim hp (fun hh => Ev.noConfusion hh))

/-- Witness for the amended C4 at a concrete fault-free site. -/
theorem listing_fault_aborts_witness :
    (∀ p, Ev.navList p ∈ (scrape_karriere siteOK "f" "r" 1 none).2 →
      siteOK.navOutcome p = none) ∧
    (∀ p, Ev.waitBody p ∈ (scrape_karriere siteOK "f" "r" 1 none).2 →
      siteOK.waitOutcome p = none) :=
  listing_fault_aborts siteOK "f" "r" 1 none
    { field := "f", region := "r", count := 0, jobs := [] } rfl

/-- C10: calling the crawl with maxJobs = 0 — below the caller-side
precondition — behaves exactly as if no limit were set: the zero bound is
falsy in the stopping test, so the job-count condition never triggers, the
crawl runs to the page limit, and the whole observable behavior (result
and trace) is identical to the unbounded crawl. -/
theorem maxJobs_zero_is_no_limit (site : Site) (field region : String)
    (pl : Nat) :
    scrape_karriere site field region pl (some 0)
      = scrape_karriere site field region pl none := by
  have hpg : pageLoop site (some 0) pl (pl + 1) 1
      = pageLoop site none pl (pl + 1) 1 :=
    funext (fun st => pageLoop_mj_zero site pl (pl + 1) 1 st)
  have hb : crawlBody site pl (some 0) = crawlBody site pl none := by
    unfold crawlBody guardErr
    rw [hpg]
  unfold scrape_karriere
  rw [hb]

end Karriere
